import Mathlib

/-!
Verification development for the BD-exam next-title-prediction repository.

Shallow embedding of:
  * `src/model/next_title_prediction/ntp_models/custom_encoders/cnn_encoder_model.py`
    (CNN image pipeline: construction-time shape arithmetic, image representation,
    normalization, batch preparation),
  * `src/model/next_title_prediction/ntp_models/lm/t5/t5.py`
    (config serialization, task sampling, batch padding, similarity-based match counting),
  * `src/sentence_encoders.py` (chunked batch encoding).

Python integers are `Nat`/`Int` (Python `//` on ints is floor division, `Int.fdiv`);
float tensors are matrices of exact rationals, except where IEEE special values matter
(division by zero), where an explicit value type with `nan`/`inf` is used.
Python exceptions (`KeyError`, `ValueError` from `np.vstack`/`np.pad`, `RuntimeError`
from `torch.stack`/`torch.vstack`/`pad_sequence` on empty lists) are `Option`/`Except`
failures.
-/

namespace BD

/-! ## CNN pipeline: construction-time shape arithmetic
    (`cnn_encoder_model.py`, `CNNModel.__init__` lines 35-69,
     `CNNModelForSequenceClassification.__init__` lines 80-85) -/

/-- Configuration of the CNN model (`CNNConfig` plus the `label2id` / `id2label`
mappings inherited from `PretrainedConfig`).  Throughout the repository the label
vocabulary is built as `{x: i for i, x in enumerate(all_unique_labels)}`
(`cnn_model_main`, line 219), so the bidirectional mapping is modelled as the list
of labels in id order: `label2id[title] = labels.indexOf title`,
`id2label[i] = labels[i]`, `len(label2id) = labels.length`. -/
structure CNNConfig where
  input_dims : List Nat
  output_dims : List Nat
  kernel_sizes : List Nat
  max_seq_len : Nat
  labels : List String
deriving Repr

/-- `kernel_size = 2` (line 47). -/
def cnn_kernel_size : Int := 2

/-- `dilation = 1` (line 48). -/
def cnn_dilation : Int := 1

/-- `stride = 2` (line 49). -/
def cnn_stride : Int := 2

/-- One MaxPool2D spatial-size update, lines 56-57:
`h = ((h - dilation * (kernel_size - 1) - 1) // stride) + 1`;
Python `//` on ints is floor division, i.e. `Int.fdiv`. -/
def maxPoolOut (old : Int) : Int :=
  Int.fdiv (old - cnn_dilation * (cnn_kernel_size - 1) - 1) cnn_stride + 1

/-- Modelled from the spec: `CNNEncoder.__init__`
(`custom_encoders/encoders.py`, imported at line 9 and called at line 39, file not
under `src/`).  Per spec §4.1 failure modes and §7, malformed `cnn_encoder_params`
with mismatched `input_dims`/`output_dims` list lengths must fail at construction
with a clear configuration error.  Only this validation is relevant here: the
encoder's layers do not enter the analytic dimension computation (lines 41-61). -/
def CNNEncoder_init (input_dims output_dims kernel_sizes : List Nat) :
    Except String Unit :=
  if input_dims.length = output_dims.length then Except.ok ()
  else Except.error "mismatched input_dims and output_dims lengths in cnn_encoder_params"

/-- The state computed by `CNNModel.__init__` that later construction steps consume:
the analytically computed flattened output dimension (line 61-63). -/
structure CNNModelState where
  output_dim : Int
deriving Repr, DecidableEq

/-- `CNNModel.__init__` (lines 35-69): construct the `CNNEncoder` (line 39), then
fold the MaxPool2D shape update over `zip(input_dims, output_dims)` (lines 45-59)
starting from `h, w, c = max_seq_len, len(label2id), 1`, and store
`output_dim = h * w * c` (lines 61-63).  Conv2D layers keep spatial dimensions
(same padding, comment at line 55), so only the pooling update applies. -/
def CNNModel_init (cfg : CNNConfig) : Except String CNNModelState := do
  let _ ← CNNEncoder_init cfg.input_dims cfg.output_dims cfg.kernel_sizes
  let init : Int × Int × Int := ((cfg.max_seq_len : Int), ((cfg.labels.length : Int), 1))
  let final := (cfg.input_dims.zip cfg.output_dims).foldl
    (fun hwc dims => (maxPoolOut hwc.1, (maxPoolOut hwc.2.1, (dims.2 : Int)))) init
  Except.ok ⟨final.1 * final.2.1 * final.2.2⟩

/-- Dimensions of a `torch.nn.Linear` layer. -/
structure LinearLayer where
  in_features : Int
  out_features : Nat
deriving Repr, DecidableEq

/-- `CNNModelForSequenceClassification.__init__` (lines 80-85): run the base
construction, then build the head `torch.nn.Linear(self.output_dim, len(self.config.label2id))`
(line 84). -/
def CNNModelForSequenceClassification_init (cfg : CNNConfig) :
    Except String (CNNModelState × LinearLayer) := do
  let st ← CNNModel_init cfg
  Except.ok (st, ⟨st.output_dim, cfg.labels.length⟩)

/-- The spatial update exactly as the claim states it:
`new = floor((old - (kernel-1) - 1)/stride) + 1` with `kernel = 2`, `stride = 2`,
`dilation = 1`. -/
def claimPoolOut (old : Int) : Int :=
  Int.fdiv (old - (2 - 1) - 1) 2 + 1

/-- The flattened dimension computed the way the claim words it: start from
`height = max_seq_len`, `width = label_count`, `channels = 1`; for each stage keep
height/width through the convolution, apply `claimPoolOut` to both spatial
dimensions, and set channels to the stage's output channel count; return
`h * w * c`.  A stage is described by its output channel count. -/
def claimFlattenedDim (stage_output_dims : List Nat) (max_seq_len label_count : Nat) : Int :=
  let final := stage_output_dims.foldl
    (fun (hwc : Int × Int × Int) (cout : Nat) =>
      (claimPoolOut hwc.1, (claimPoolOut hwc.2.1, (cout : Int))))
    ((max_seq_len : Int), ((label_count : Int), 1))
  final.1 * final.2.1 * final.2.2

theorem maxPoolOut_eq_claimPoolOut (old : Int) : maxPoolOut old = claimPoolOut old := by
  simp [maxPoolOut, claimPoolOut, cnn_dilation, cnn_kernel_size, cnn_stride]

theorem zip_fold_eq_claim_fold (l1 l2 : List Nat) (h : l1.length = l2.length)
    (init : Int × Int × Int) :
    (l1.zip l2).foldl
      (fun (hwc : Int × Int × Int) (dims : Nat × Nat) =>
        (maxPoolOut hwc.1, (maxPoolOut hwc.2.1, (dims.2 : Int)))) init =
    l2.foldl
      (fun (hwc : Int × Int × Int) (cout : Nat) =>
        (claimPoolOut hwc.1, (claimPoolOut hwc.2.1, (cout : Int)))) init := by
  induction l1 generalizing l2 init with
  | nil =>
    have : l2 = [] := by
      cases l2 with
      | nil => rfl
      | cons y ys => simp at h
    subst this; rfl
  | cons x xs ih =>
    cases l2 with
    | nil => simp at h
    | cons y ys =>
      simp only [List.zip_cons_cons, List.foldl_cons]
      rw [maxPoolOut_eq_claimPoolOut, maxPoolOut_eq_claimPoolOut]
      exact ih ys (by simpa using h) _

/-- C1: for every CNN configuration with matching stage lists and every
`(max_seq_len, label_count)` pair, construction succeeds, the flattened output
dimension computed at construction (lines 41-63) equals the value obtained by the
claim's analytic recurrence (`claimFlattenedDim`), and the linear head is built
with input width exactly that value and output width the label count (line 84). -/
theorem C1_cnn_flattened_dim (cfg : CNNConfig)
    (hlen : cfg.input_dims.length = cfg.output_dims.length) :
    ∃ st head, CNNModelForSequenceClassification_init cfg = Except.ok (st, head) ∧
      st.output_dim = claimFlattenedDim cfg.output_dims cfg.max_seq_len cfg.labels.length ∧
      head.in_features = claimFlattenedDim cfg.output_dims cfg.max_seq_len cfg.labels.length ∧
      head.out_features = cfg.labels.length := by
  have hinit : CNNModel_init cfg = Except.ok
      ⟨claimFlattenedDim cfg.output_dims cfg.max_seq_len cfg.labels.length⟩ := by
    unfold CNNModel_init CNNEncoder_init
    rw [if_pos hlen]
    simp only [bind, Except.bind]
    rw [zip_fold_eq_claim_fold _ _ hlen]
    rfl
  refine ⟨⟨claimFlattenedDim cfg.output_dims cfg.max_seq_len cfg.labels.length⟩,
    ⟨claimFlattenedDim cfg.output_dims cfg.max_seq_len cfg.labels.length, cfg.labels.length⟩,
    ?_, rfl, rfl, rfl⟩
  unfold CNNModelForSequenceClassification_init
  rw [hinit]
  rfl

/-- Witness for C1 at the configuration used by `cnn_model_main` (lines 213-218)
with a 3-label vocabulary. -/
theorem C1_cnn_flattened_dim_witness :
    ∃ st head,
      CNNModelForSequenceClassification_init
        ⟨[1, 64, 128, 128, 64, 64], [64, 128, 128, 64, 64, 10], [7, 5, 5, 5, 5, 1],
          100, ["a", "b", "c"]⟩ = Except.ok (st, head) ∧
      st.output_dim = claimFlattenedDim [64, 128, 128, 64, 64, 10] 100 3 ∧
      head.in_features = claimFlattenedDim [64, 128, 128, 64, 64, 10] 100 3 ∧
      head.out_features = 3 :=
  C1_cnn_flattened_dim
    ⟨[1, 64, 128, 128, 64, 64], [64, 128, 128, 64, 64, 10], [7, 5, 5, 5, 5, 1],
      100, ["a", "b", "c"]⟩ (by decide)

/-- C3: mismatched `input_dims`/`output_dims` list lengths make `CNNModel`
construction fail with a configuration error, so no flattened output dimension is
ever derived from a silently truncated stage sequence. -/
theorem C3_mismatched_dims_fail (cfg : CNNConfig)
    (hlen : cfg.input_dims.length ≠ cfg.output_dims.length) :
    ∃ msg, CNNModel_init cfg = Except.error msg ∧
      CNNModelForSequenceClassification_init cfg = Except.error msg := by
  refine ⟨"mismatched input_dims and output_dims lengths in cnn_encoder_params", ?_, ?_⟩
  · unfold CNNModel_init CNNEncoder_init
    rw [if_neg hlen]
    rfl
  · unfold CNNModelForSequenceClassification_init CNNModel_init CNNEncoder_init
    rw [if_neg hlen]
    rfl

/-- Witness for C3: two input stages against one output stage. -/
theorem C3_mismatched_dims_fail_witness :
    ∃ msg, CNNModel_init ⟨[1, 64], [64], [7], 100, ["a"]⟩ = Except.error msg ∧
      CNNModelForSequenceClassification_init ⟨[1, 64], [64], [7], 100, ["a"]⟩ =
        Except.error msg :=
  C3_mismatched_dims_fail ⟨[1, 64], [64], [7], 100, ["a"]⟩ (by decide)

/-! ## CNN pipeline: image representation
    (`cnn_encoder_model.py`, `NTPCNNModel.prepare_input` lines 133-164) -/

/-- Value of one cell of a float tensor.  Counts and their quotients are exact
rationals; IEEE special values from division by zero are explicit.  `0.0 / 0.0`
is NaN, and `x / 0.0` with `x > 0` is +inf; neither raises an exception. -/
inductive TVal where
  | val (q : ℚ)
  | nan
  | inf
deriving DecidableEq, Repr

/-- `last_repr[title_idx] += 1` (line 147): numpy in-place increment at an index. -/
def incAt (l : List Nat) (i : Nat) : List Nat :=
  l.set i (l.getD i 0 + 1)

/-- The loop at lines 145-148: for each title, look its id up in `label2id`
(a `KeyError` for an out-of-vocabulary title is `none`), increment that cell of
`last_repr`, and append a copy of `last_repr` to the row list. -/
def imageRows (labels : List String) : List String → List Nat → Option (List (List Nat))
  | [], _ => some []
  | t :: ts, last =>
    if t ∈ labels then
      let last2 := incAt last (labels.indexOf t)
      (imageRows labels ts last2).map (fun rest => last2 :: rest)
    else none

/-- Lines 142-154 for a single title sequence: build the rows with `last_repr`
initialized to `np.full(len(label2id), 0)` (line 143), `np.vstack` them (line 151,
raising on an empty row list), and `np.pad` with `max_seq_len - len(image_repr)`
zero rows (line 154, raising when the pad amount would be negative). -/
def image_repr (labels : List String) (max_seq_len : Nat) (titles : List String) :
    Option (List (List Nat)) := do
  let rows ← imageRows labels titles (List.replicate labels.length 0)
  if rows.isEmpty then none
  else if titles.length ≤ max_seq_len then
    pure (rows ++ List.replicate (max_seq_len - titles.length) (List.replicate labels.length 0))
  else none

/-- `np.max(image_repr)` (line 155) over a matrix of counts. -/
def matMax (m : List (List Nat)) : Nat :=
  (m.map (fun row => row.foldr max 0)).foldr max 0

/-- One cell of `.div(max_image_repr_value)` (line 156) under IEEE float semantics:
division by zero yields NaN for a zero numerator and +inf for a positive one;
otherwise the exact quotient. -/
def normCell (x : Nat) (m : Nat) : TVal :=
  if m = 0 then (if x = 0 then TVal.nan else TVal.inf)
  else TVal.val ((x : ℚ) / (m : ℚ))

/-- Lines 155-156: `max_image_repr_value = np.max(image_repr)` followed by the
elementwise `.div(max_image_repr_value)`. -/
def div_by_max (m : List (List Nat)) : List (List TVal) :=
  m.map (List.map (fun x => normCell x (matMax m)))

/-- The `for titles in batch` loop (lines 137-157): process the sequences in
order, stopping with the exception of the first failing one. -/
def mapOrFail (f : α → Option β) : List α → Option (List β)
  | [] => some []
  | x :: xs => do
    let y ← f x
    let ys ← mapOrFail f xs
    pure (y :: ys)

/-- `NTPCNNModel.prepare_input` restricted to the image field (lines 136-159):
build each sequence's representation, `.unsqueeze(0)` to add the channel
dimension (line 156), and `torch.stack` the batch (line 159, raising on an empty
tensor list). -/
def prepare_input_images (labels : List String) (max_seq_len : Nat)
    (batch : List (List String)) : Option (List (List (List (List TVal)))) := do
  let imgs ← mapOrFail
    (fun titles => (image_repr labels max_seq_len titles).map (fun m => [div_by_max m]))
    batch
  if imgs.isEmpty then none else pure imgs

/-- Running occurrence count: how many titles of `pre` map to label id `j`
(`label2id[title] == j`). -/
def countJ (labels : List String) (pre : List String) (j : Nat) : Nat :=
  pre.countP (fun t => labels.indexOf t == j)

/-! ### Elementary helper lemmas -/

theorem getD_replicate_self {α : Type} (n j : Nat) (a : α) :
    (List.replicate n a).getD j a = a := by
  induction n generalizing j with
  | zero => simp [List.getD_nil]
  | succ k ih =>
    cases j with
    | zero => simp [List.replicate_succ, List.getD_cons_zero]
    | succ j' => simp [List.replicate_succ, List.getD_cons_succ, ih j']

theorem getD_replicate_of_lt {α : Type} (n j : Nat) (a d : α) (h : j < n) :
    (List.replicate n a).getD j d = a := by
  induction n generalizing j with
  | zero => omega
  | succ k ih =>
    cases j with
    | zero => simp [List.replicate_succ, List.getD_cons_zero]
    | succ j' =>
      rw [List.replicate_succ, List.getD_cons_succ]
      exact ih j' (by omega)

theorem length_incAt (l : List Nat) (i : Nat) : (incAt l i).length = l.length := by
  simp [incAt]

theorem getD_incAt : ∀ (l : List Nat) (i j : Nat), i < l.length →
    (incAt l i).getD j 0 = l.getD j 0 + (if i = j then 1 else 0)
  | [], i, _, h => by simp at h
  | x :: xs, 0, 0, _ => by simp [incAt, List.getD_cons_zero]
  | x :: xs, 0, j + 1, _ => by
    simp [incAt, List.getD_cons_zero, List.getD_cons_succ]
  | x :: xs, i + 1, 0, _ => by
    simp [incAt, List.getD_cons_succ, List.getD_cons_zero, List.set]
  | x :: xs, i + 1, j + 1, h => by
    have ih := getD_incAt xs i j (by simpa using h)
    simp only [incAt, List.getD_cons_succ, List.set] at ih ⊢
    simpa using ih

theorem getD_le_foldr_max : ∀ (l : List Nat) (j : Nat), l.getD j 0 ≤ l.foldr max 0
  | [], j => by simp [List.getD_nil]
  | x :: xs, 0 => by
    simp only [List.getD_cons_zero, List.foldr_cons]
    exact Nat.le_max_left _ _
  | x :: xs, j + 1 => by
    simp only [List.getD_cons_succ, List.foldr_cons]
    exact le_trans (getD_le_foldr_max xs j) (Nat.le_max_right _ _)

theorem getD_getD_le_matMax :
    ∀ (m : List (List Nat)) (i j : Nat), ((m.getD i []).getD j 0) ≤ matMax m
  | [], i, j => by simp [List.getD_nil, matMax]
  | row :: m', 0, j => by
    simp only [List.getD_cons_zero, matMax, List.map_cons, List.foldr_cons]
    exact le_trans (getD_le_foldr_max row j) (Nat.le_max_left _ _)
  | row :: m', i + 1, j => by
    simp only [List.getD_cons_succ, matMax, List.map_cons, List.foldr_cons]
    exact le_trans (getD_getD_le_matMax m' i j) (Nat.le_max_right _ _)

theorem mem_le_foldr_max (l : List Nat) (x : Nat) (hx : x ∈ l) : x ≤ l.foldr max 0 := by
  induction l with
  | nil => simp at hx
  | cons y ys ih =>
    rcases List.mem_cons.mp hx with h | h
    · subst h; exact Nat.le_max_left _ _
    · exact le_trans (ih h) (Nat.le_max_right _ _)

theorem mem_le_matMax (m : List (List Nat)) (row : List Nat) (x : Nat)
    (hrow : row ∈ m) (hx : x ∈ row) : x ≤ matMax m := by
  have h1 : x ≤ row.foldr max 0 := mem_le_foldr_max row x hx
  have h2 : row.foldr max 0 ∈ m.map (fun r => r.foldr max 0) := List.mem_map_of_mem _ hrow
  exact le_trans h1 (mem_le_foldr_max _ _ h2)

/-! ### C2: all-zero image before normalization -/

theorem foldr_max_eq_zero (l : List Nat) (h : ∀ x ∈ l, x = 0) : l.foldr max 0 = 0 := by
  induction l with
  | nil => rfl
  | cons x xs ih =>
    have hx : x = 0 := h x (by simp)
    have hxs : xs.foldr max 0 = 0 := ih (fun z hz => h z (by simp [hz]))
    simp [List.foldr_cons, hx, hxs]

theorem matMax_eq_zero (m : List (List Nat)) (hz : ∀ row ∈ m, ∀ x ∈ row, x = 0) :
    matMax m = 0 := by
  unfold matMax
  apply foldr_max_eq_zero
  intro v hv
  rcases List.mem_map.mp hv with ⟨row, hrow, rfl⟩
  exact foldr_max_eq_zero row (hz row hrow)

/-- C2 counterexample: for the all-zero 1×1 image, normalization (lines 155-156)
returns NaN (IEEE `0.0 / 0.0`), not the unchanged all-zero tensor the claim
states. -/
theorem C2_allzero_counterexample :
    div_by_max [[0]] = [[TVal.nan]] ∧ div_by_max [[0]] ≠ [[TVal.val 0]] := by
  refine ⟨rfl, fun h => ?_⟩
  rw [show div_by_max [[0]] = [[TVal.nan]] from rfl] at h
  exact absurd (List.head_eq_of_cons_eq (List.head_eq_of_cons_eq h)) (by decide)

/-- C2 (amended): an image representation that is all zeros before normalization
raises no division exception — `div_by_max` is total — but every cell of the
result is NaN (IEEE `0.0 / 0.0`), not the unchanged all-zero image.  (No valid
title sequence reaches this case: any non-empty in-vocabulary sequence has
maximum count at least 1, and the other cases raise before normalization.) -/
theorem C2_allzero_gives_nan (m : List (List Nat))
    (hz : ∀ row ∈ m, ∀ x ∈ row, x = 0) :
    div_by_max m = m.map (List.map (fun _ => TVal.nan)) := by
  have hmax : matMax m = 0 := matMax_eq_zero m hz
  unfold div_by_max
  rw [hmax]
  apply List.map_congr_left
  intro row hrow
  apply List.map_congr_left
  intro x hx
  have : x = 0 := hz row hrow x hx
  subst this
  rfl

/-- Witness for the amended C2 at the concrete all-zero 2-row image. -/
theorem C2_allzero_gives_nan_witness :
    div_by_max [[0, 0], [0, 0]] =
      [[TVal.nan, TVal.nan], [TVal.nan, TVal.nan]] :=
  C2_allzero_gives_nan [[0, 0], [0, 0]] (by decide)

/-! ### Characterization of the image-representation loop -/

theorem imageRows_length (labels : List String) :
    ∀ (titles : List String) (last : List Nat) (rows : List (List Nat)),
      imageRows labels titles last = some rows → rows.length = titles.length
  | [], _, rows, h => by
    simp only [imageRows, Option.some.injEq] at h
    subst h; rfl
  | t :: ts, last, rows, h => by
    simp only [imageRows] at h
    split at h
    · rcases Option.map_eq_some'.mp h with ⟨rest, hrest, rfl⟩
      simpa using imageRows_length labels ts _ rest hrest
    · exact absurd h (by simp)

theorem imageRows_none_of_not_mem (labels : List String) :
    ∀ (titles : List String) (last : List Nat) (t : String),
      t ∈ titles → t ∉ labels → imageRows labels titles last = none
  | [], _, t, ht, _ => by simp at ht
  | u :: us, last, t, ht, hnot => by
    simp only [imageRows]
    rcases List.mem_cons.mp ht with rfl | hmem
    · rw [if_neg hnot]
    · split
      · rw [imageRows_none_of_not_mem labels us _ t hmem hnot]
        rfl
      · rfl

/-- The central characterization of the loop at lines 142-148: when every title is
in the vocabulary, the loop succeeds and row `i` is `last` plus the running
occurrence counts over positions `0..i`. -/
theorem imageRows_spec (labels : List String) :
    ∀ (titles : List String) (last : List Nat),
      (∀ t ∈ titles, t ∈ labels) → last.length = labels.length →
      ∃ rows, imageRows labels titles last = some rows ∧
        rows.length = titles.length ∧
        (∀ row ∈ rows, row.length = labels.length) ∧
        (∀ i, i < titles.length → ∀ j,
          (rows.getD i []).getD j 0 = last.getD j 0 + countJ labels (titles.take (i + 1)) j)
  | [], last, _, _ => by
    refine ⟨[], rfl, rfl, by simp, ?_⟩
    intro i hi
    simp at hi
  | t :: ts, last, hvocab, hlast => by
    have ht : t ∈ labels := hvocab t (by simp)
    have hidx : labels.indexOf t < last.length := by
      rw [hlast]; exact List.indexOf_lt_length.mpr ht
    have hlast2 : (incAt last (labels.indexOf t)).length = labels.length := by
      rw [length_incAt]; exact hlast
    obtain ⟨rest, hrest, hrlen, hrowlen, hval⟩ :=
      imageRows_spec labels ts (incAt last (labels.indexOf t))
        (fun u hu => hvocab u (by simp [hu])) hlast2
    refine ⟨incAt last (labels.indexOf t) :: rest, ?_, by simpa using hrlen, ?_, ?_⟩
    · simp only [imageRows, if_pos ht, hrest, Option.map_some']
    · intro row hrow
      rcases List.mem_cons.mp hrow with rfl | hmem
      · rw [length_incAt]; exact hlast
      · exact hrowlen row hmem
    · intro i hi j
      cases i with
      | zero =>
        have hcount : countJ labels ((t :: ts).take 1) j =
            (if labels.indexOf t = j then 1 else 0) := by
          simp only [List.take_succ_cons, List.take_zero, countJ, List.countP_cons,
            List.countP_nil]
          by_cases hj : labels.indexOf t = j
          · simp [hj]
          · simp [hj]
        simp only [List.getD_cons_zero, hcount]
        exact getD_incAt last (labels.indexOf t) j hidx
      | succ k =>
        have hk : k < ts.length := by simpa using hi
        have := hval k hk j
        simp only [List.getD_cons_succ, this, getD_incAt last (labels.indexOf t) j hidx]
        have hcount : countJ labels ((t :: ts).take (k + 2)) j =
            (if labels.indexOf t = j then 1 else 0) + countJ labels (ts.take (k + 1)) j := by
          simp only [List.take_succ_cons, countJ, List.countP_cons]
          by_cases hj : labels.indexOf t = j
          · simp [hj, Nat.add_comm]
          · simp [hj]
        rw [hcount]
        omega

/-- Full characterization of `image_repr` under the C4 preconditions: shape,
running-count rows, and the zero padding. -/
theorem image_repr_spec (labels : List String) (max_seq_len : Nat) (titles : List String)
    (hne : titles ≠ []) (hlen : titles.length ≤ max_seq_len)
    (hvocab : ∀ t ∈ titles, t ∈ labels) :
    ∃ m, image_repr labels max_seq_len titles = some m ∧
      m.length = max_seq_len ∧
      (∀ row ∈ m, row.length = labels.length) ∧
      (∀ i, i < titles.length → ∀ j,
        (m.getD i []).getD j 0 = countJ labels (titles.take (i + 1)) j) ∧
      (∀ i, titles.length ≤ i → i < max_seq_len →
        m.getD i [] = List.replicate labels.length 0) := by
  obtain ⟨rows, hrows, hrlen, hrowlen, hval⟩ :=
    imageRows_spec labels titles (List.replicate labels.length 0) hvocab (by simp)
  have hrne : rows.isEmpty = false := by
    cases rows with
    | nil =>
      exfalso
      apply hne
      apply List.length_eq_zero.mp
      simpa using hrlen.symm
    | cons r rs => rfl
  set pad := List.replicate (max_seq_len - titles.length) (List.replicate labels.length 0)
    with hpad
  refine ⟨rows ++ pad, ?_, ?_, ?_, ?_, ?_⟩
  · simp only [image_repr, hrows, Option.bind_eq_bind, Option.some_bind, hrne,
      Bool.false_eq_true, if_false, if_pos hlen]
    rfl
  · simp only [List.length_append, hrlen, hpad, List.length_replicate]
    omega
  · intro row hrow
    rcases List.mem_append.mp hrow with hmem | hmem
    · exact hrowlen row hmem
    · rw [List.eq_of_mem_replicate hmem]
      simp
  · intro i hi j
    have hi' : i < rows.length := by rw [hrlen]; exact hi
    rw [List.getD_append _ _ _ _ hi']
    have := hval i hi j
    rw [this]
    simp [getD_replicate_self]
  · intro i hge hlt
    have hge' : rows.length ≤ i := by rw [hrlen]; exact hge
    rw [List.getD_append_right _ _ _ _ hge']
    rw [hrlen]
    exact getD_replicate_of_lt _ _ _ _ (by omega)

/-! ### C4: invariants of the image representation -/

/-- C4: for a non-empty title sequence of length at most `max_seq_len` whose
titles all occur in the label vocabulary, the image representation (lines
136-157) is a `max_seq_len × |labels|` matrix whose row `i` holds the running
occurrence counts over positions `0..i`, whose columns are monotonically
non-decreasing across the unpadded rows, whose padded rows are all zeros, and
whose cells after division by the matrix's own maximum are rationals in
`[0, 1]`. -/
theorem C4_image_invariants (labels : List String) (max_seq_len : Nat)
    (titles : List String) (hne : titles ≠ []) (hlen : titles.length ≤ max_seq_len)
    (hvocab : ∀ t ∈ titles, t ∈ labels) :
    ∃ m, image_repr labels max_seq_len titles = some m ∧
      m.length = max_seq_len ∧
      (∀ row ∈ m, row.length = labels.length) ∧
      (∀ i, i < titles.length → ∀ j,
        (m.getD i []).getD j 0 = countJ labels (titles.take (i + 1)) j) ∧
      (∀ i1 i2 j, i1 ≤ i2 → i2 < titles.length →
        (m.getD i1 []).getD j 0 ≤ (m.getD i2 []).getD j 0) ∧
      (∀ i, titles.length ≤ i → i < max_seq_len →
        m.getD i [] = List.replicate labels.length 0) ∧
      (∀ row ∈ div_by_max m, ∀ cell ∈ row, ∃ q : ℚ, cell = TVal.val q ∧ 0 ≤ q ∧ q ≤ 1) := by
  obtain ⟨m, hm, hmlen, hrowlen, hval, hpad⟩ :=
    image_repr_spec labels max_seq_len titles hne hlen hvocab
  have hcount_mono : ∀ i1 i2 j, i1 ≤ i2 → i2 < titles.length →
      (m.getD i1 []).getD j 0 ≤ (m.getD i2 []).getD j 0 := by
    intro i1 i2 j h12 h2
    rw [hval i1 (lt_of_le_of_lt h12 h2) j, hval i2 h2 j]
    have hpre : titles.take (i1 + 1) = (titles.take (i2 + 1)).take (i1 + 1) := by
      rw [List.take_take, Nat.min_eq_left (by omega)]
    unfold countJ
    rw [hpre]
    exact List.Sublist.countP_le _ ((List.take_prefix _ _).sublist)
  have hmax1 : 1 ≤ matMax m := by
    cases titles with
    | nil => exact absurd rfl hne
    | cons t0 ts =>
      have h0 : (m.getD 0 []).getD (labels.indexOf t0) 0 = 1 := by
        rw [hval 0 (by simp) (labels.indexOf t0)]
        simp [countJ, List.countP_cons]
      calc 1 = (m.getD 0 []).getD (labels.indexOf t0) 0 := h0.symm
        _ ≤ matMax m := getD_getD_le_matMax m 0 (labels.indexOf t0)
  refine ⟨m, hm, hmlen, hrowlen, hval, hcount_mono, hpad, ?_⟩
  intro row hrow cell hcell
  rcases List.mem_map.mp hrow with ⟨row0, hrow0, rfl⟩
  rcases List.mem_map.mp hcell with ⟨x, hx, rfl⟩
  have hxle : x ≤ matMax m := mem_le_matMax m row0 x hrow0 hx
  have hM : matMax m ≠ 0 := by omega
  refine ⟨(x : ℚ) / (matMax m : ℚ), ?_, ?_, ?_⟩
  · simp [normCell, hM]
  · positivity
  · rw [div_le_one (by exact_mod_cast Nat.pos_of_ne_zero hM)]
    exact_mod_cast hxle

/-- Witness for C4 at the sequence `["a", "a", "b"]` over vocabulary
`["a", "b"]` with `max_seq_len = 4`. -/
theorem C4_image_invariants_witness :
    ∃ m, image_repr ["a", "b"] 4 ["a", "a", "b"] = some m ∧
      m.length = 4 ∧
      (∀ row ∈ m, row.length = 2) ∧
      (∀ i, i < 3 → ∀ j,
        (m.getD i []).getD j 0 = countJ ["a", "b"] (["a", "a", "b"].take (i + 1)) j) ∧
      (∀ i1 i2 j, i1 ≤ i2 → i2 < 3 →
        (m.getD i1 []).getD j 0 ≤ (m.getD i2 []).getD j 0) ∧
      (∀ i, 3 ≤ i → i < 4 → m.getD i [] = List.replicate 2 0) ∧
      (∀ row ∈ div_by_max m, ∀ cell ∈ row, ∃ q : ℚ, cell = TVal.val q ∧ 0 ≤ q ∧ q ≤ 1) :=
  C4_image_invariants ["a", "b"] 4 ["a", "a", "b"] (by decide) (by decide) (by decide)

/-! ### C10: definedness and shape of the batched image tensor -/

theorem mapOrFail_none_of_mem {α β : Type} (f : α → Option β) :
    ∀ (l : List α) (x : α), x ∈ l → f x = none → mapOrFail f l = none
  | [], x, hx, _ => by simp at hx
  | u :: us, x, hx, hfx => by
    rcases List.mem_cons.mp hx with rfl | hmem
    · simp [mapOrFail, hfx]
    · cases hfu : f u with
      | none => simp [mapOrFail, hfu]
      | some y => simp [mapOrFail, hfu, mapOrFail_none_of_mem f us x hmem hfx]

theorem mapOrFail_spec {α β : Type} (f : α → Option β) :
    ∀ (l : List α), (∀ x ∈ l, ∃ y, f x = some y) →
      ∃ ys, mapOrFail f l = some ys ∧ ys.length = l.length ∧
        ∀ y ∈ ys, ∃ x ∈ l, f x = some y
  | [], _ => ⟨[], rfl, rfl, by simp⟩
  | u :: us, h => by
    obtain ⟨y, hy⟩ := h u (by simp)
    obtain ⟨ys, hys, hlen, hmem⟩ := mapOrFail_spec f us (fun x hx => h x (by simp [hx]))
    refine ⟨y :: ys, ?_, by simp [hlen], ?_⟩
    · simp [mapOrFail, hy, hys]
    · intro z hz
      rcases List.mem_cons.mp hz with rfl | hmem'
      · exact ⟨u, by simp, hy⟩
      · obtain ⟨x, hx, hfx⟩ := hmem z hmem'
        exact ⟨x, by simp [hx], hfx⟩

theorem image_repr_none_of_empty (labels : List String) (max_seq_len : Nat) :
    image_repr labels max_seq_len [] = none := by
  simp [image_repr, imageRows]

theorem image_repr_none_of_long (labels : List String) (max_seq_len : Nat)
    (titles : List String) (h : max_seq_len < titles.length) :
    image_repr labels max_seq_len titles = none := by
  cases himg : imageRows labels titles (List.replicate labels.length 0) with
  | none => simp [image_repr, himg]
  | some rows =>
    by_cases hre : rows.isEmpty <;>
      simp [image_repr, himg, hre, Nat.not_le.mpr h]

theorem image_repr_none_of_oov (labels : List String) (max_seq_len : Nat)
    (titles : List String) (t : String) (ht : t ∈ titles) (hnot : t ∉ labels) :
    image_repr labels max_seq_len titles = none := by
  simp [image_repr, imageRows_none_of_not_mem labels titles _ t ht hnot]

/-- C10 (amended to non-empty batches): on a non-empty batch whose every title
sequence is non-empty, of length at most `max_seq_len`, and drawn from the label
vocabulary, `prepare_input` returns an image tensor of shape
`(batch_size, 1, max_seq_len, |labels|)`; a batch containing an empty sequence,
a too-long sequence, or an out-of-vocabulary title raises instead of returning.
(An empty batch also raises: `torch.stack` of an empty tensor list, line 159.) -/
theorem C10_prepare_input_shape (labels : List String) (max_seq_len : Nat)
    (batch : List (List String)) :
    (batch ≠ [] →
      (∀ titles ∈ batch, titles ≠ [] ∧ titles.length ≤ max_seq_len ∧
        ∀ t ∈ titles, t ∈ labels) →
      ∃ out, prepare_input_images labels max_seq_len batch = some out ∧
        out.length = batch.length ∧
        ∀ img ∈ out, img.length = 1 ∧ ∀ ch ∈ img, ch.length = max_seq_len ∧
          ∀ row ∈ ch, row.length = labels.length) ∧
    ((∃ titles ∈ batch, titles = [] ∨ max_seq_len < titles.length ∨
        ∃ t ∈ titles, t ∉ labels) →
      prepare_input_images labels max_seq_len batch = none) := by
  constructor
  · intro hne hpre
    obtain ⟨ys, hys, hlen, hmem⟩ := mapOrFail_spec
      (fun titles => (image_repr labels max_seq_len titles).map (fun m => [div_by_max m]))
      batch
      (by
        intro titles ht
        obtain ⟨h1, h2, h3⟩ := hpre titles ht
        obtain ⟨m, hm, _⟩ := image_repr_spec labels max_seq_len titles h1 h2 h3
        exact ⟨[div_by_max m], by simp [hm]⟩)
    have hyne : ys ≠ [] := by
      intro h
      subst h
      exact hne (List.length_eq_zero.mp (by simpa using hlen.symm))
    refine ⟨ys, ?_, hlen, ?_⟩
    · simp [prepare_input_images, hys, List.isEmpty_iff, hyne]
    · intro img himg
      obtain ⟨titles, ht, hf⟩ := hmem img himg
      obtain ⟨h1, h2, h3⟩ := hpre titles ht
      obtain ⟨m, hm, hmlen, hrowlen, -, -⟩ :=
        image_repr_spec labels max_seq_len titles h1 h2 h3
      rw [hm] at hf
      simp only [Option.map_some', Option.some.injEq] at hf
      subst hf
      refine ⟨rfl, ?_⟩
      intro ch hch
      rcases List.mem_singleton.mp hch with rfl
      constructor
      · simpa [div_by_max] using hmlen
      · intro row hrow
        rcases List.mem_map.mp hrow with ⟨row0, hrow0, rfl⟩
        simpa using hrowlen row0 hrow0
  · rintro ⟨titles, ht, hbad⟩
    have hnone : image_repr labels max_seq_len titles = none := by
      rcases hbad with rfl | h | ⟨t, htt, hnot⟩
      · exact image_repr_none_of_empty labels max_seq_len
      · exact image_repr_none_of_long labels max_seq_len titles h
      · exact image_repr_none_of_oov labels max_seq_len titles t htt hnot
    have : mapOrFail
        (fun titles => (image_repr labels max_seq_len titles).map (fun m => [div_by_max m]))
        batch = none :=
      mapOrFail_none_of_mem _ batch titles ht (by simp [hnone])
    simp [prepare_input_images, this]

/-- C10 counterexample for the claim as stated: the empty batch satisfies the
claim's precondition vacuously, yet `prepare_input` raises (`torch.stack` of an
empty tensor list, line 159) instead of returning a `(0, 1, max_seq_len, |labels|)`
tensor. -/
theorem C10_empty_batch_counterexample :
    (∀ titles ∈ ([] : List (List String)), titles ≠ [] ∧ titles.length ≤ 2 ∧
      ∀ t ∈ titles, t ∈ ["a"]) ∧
    prepare_input_images ["a"] 2 [] = none := by
  exact ⟨by simp, rfl⟩

/-- Witness for the amended C10 on the batch `[["a"], ["b", "b"]]`. -/
theorem C10_prepare_input_shape_witness :
    ∃ out, prepare_input_images ["a", "b"] 2 [["a"], ["b", "b"]] = some out ∧
      out.length = 2 ∧
      ∀ img ∈ out, img.length = 1 ∧ ∀ ch ∈ img, ch.length = 2 ∧
        ∀ row ∈ ch, row.length = 2 :=
  (C10_prepare_input_shape ["a", "b"] 2 [["a"], ["b", "b"]]).1 (by decide) (by decide)

/-! ## T5 pipeline: task templates and configuration serialization
    (`t5.py`, `NTPT5Config` lines 22-77) -/

/-- Modelled from the spec: the task-template strategies of
`ntp_models/lm/t5/templates.py` (imported at lines 14-15, file not under `src/`).
Spec §4.4: a direct prediction template, a keyword-side-information template, a
yes/no boolean-candidate template carrying its candidate label list, and the two
cluster-aware variants; each is stateless given its parameters. -/
inductive Task where
  | directNTP
  | directNTPSideInfo
  | boolNTP (candidate_labels : List String)
  | clusteredNTP
  | clusteredNTPSideInfo
deriving DecidableEq, Repr

/-- Modelled from the spec: `Task.to_json` (templates.py, not under `src/`) —
spec §4.4 and §6: each task serializes canonically to its class tag plus its
constructor parameters. -/
def Task.to_json : Task → String × List String
  | Task.directNTP => ("DirectNTP", [])
  | Task.directNTPSideInfo => ("DirectNTPSideInfo", [])
  | Task.boolNTP ls => ("BoolNTP", ls)
  | Task.clusteredNTP => ("ClusteredNTP", [])
  | Task.clusteredNTPSideInfo => ("ClusteredNTPSideInfo", [])

/-- Modelled from the spec: `Task.from_eval` (templates.py, not under `src/`) —
spec §4.4 and §9: reconstruction of a task from its stored class tag and
parameters via a (tag → constructor) registry; an unknown tag fails. -/
def Task.from_eval (tag : String) (params : List String) : Option Task :=
  if tag = "DirectNTP" then some Task.directNTP
  else if tag = "DirectNTPSideInfo" then some Task.directNTPSideInfo
  else if tag = "BoolNTP" then some (Task.boolNTP params)
  else if tag = "ClusteredNTP" then some Task.clusteredNTP
  else if tag = "ClusteredNTPSideInfo" then some Task.clusteredNTPSideInfo
  else none

theorem from_eval_to_json (t : Task) :
    Task.from_eval t.to_json.1 t.to_json.2 = some t := by
  cases t <;> rfl

/-- `NTPT5Config` (lines 22-37): the fields beyond the `T5Config` primitives —
the ordered list of training tasks, the test task, and the label vocabulary
(`all_unique_labels`, stored as an array and serialized to a plain list). -/
structure NTPT5Config where
  training_tasks : List Task
  test_task : Task
  all_unique_labels : List String
deriving DecidableEq, Repr

/-- The primitive-only serialized form produced by `to_dict` (lines 70-77):
tasks degraded to (class tag, parameters) pairs and the label array to a plain
list. -/
structure NTPT5ConfigDict where
  training_tasks : List (String × List String)
  test_task : String × List String
  all_unique_labels : List String
deriving DecidableEq, Repr

/-- `NTPT5Config.to_dict` (lines 70-77): `training_tasks` become
`[task.to_json() for task in ...]`, `test_task` becomes `test_task.to_json()`,
and `all_unique_labels` becomes `list(...)`. -/
def NTPT5Config.to_dict (c : NTPT5Config) : NTPT5ConfigDict :=
  { training_tasks := c.training_tasks.map Task.to_json
    test_task := c.test_task.to_json
    all_unique_labels := c.all_unique_labels }

/-- `NTPT5Config.from_dict` (lines 39-67) on a pure `config_dict` (no keyword
overrides): rebuild each training task with `Task.from_eval` (lines 50-55),
rebuild the test task when present — `to_dict` always emits it (lines 60-62) —
and hand the result to the superclass constructor, which assembles the
configuration from the dictionary fields. -/
def NTPT5Config.from_dict (d : NTPT5ConfigDict) : Option NTPT5Config := do
  let eval_training_tasks ← mapOrFail (fun p => Task.from_eval p.1 p.2) d.training_tasks
  let test_task ← Task.from_eval d.test_task.1 d.test_task.2
  pure { training_tasks := eval_training_tasks
         test_task := test_task
         all_unique_labels := d.all_unique_labels }

/-- C7: serializing an `NTPT5Config` with `to_dict` and reconstructing with
`from_dict` reproduces the configuration: identical label vocabulary and an
equivalent ordered list of training tasks plus the test task. -/
theorem C7_config_round_trip (c : NTPT5Config) :
    NTPT5Config.from_dict (NTPT5Config.to_dict c) = some c := by
  have htasks : mapOrFail (fun p => Task.from_eval p.1 p.2)
      (c.training_tasks.map Task.to_json) = some c.training_tasks := by
    induction c.training_tasks with
    | nil => rfl
    | cons t ts ih =>
      simp [mapOrFail, from_eval_to_json, ih]
  simp [NTPT5Config.from_dict, NTPT5Config.to_dict, htasks, from_eval_to_json]

/-! ### C8: task selection in `NTPT5.tokenize` (lines 132-147) -/

/-- The task selection at line 138:
`task = random.choice(self.config.training_tasks) if self.training else self.config.test_task`.
Python's `random.choice(seq)` draws a fresh uniform index below `len(seq)` on
every call and returns `seq[index]` (raising `IndexError` on an empty sequence);
the draw is the explicit `draw` argument, consumed independently per call. -/
def tokenize_select_task (training : Bool) (cfg : NTPT5Config) (draw : Nat) :
    Option Task :=
  if training then cfg.training_tasks.get? draw else some cfg.test_task

/-- C8: when not training, `tokenize` always uses the single configured test
task, for every random draw (no sampling); when training, the task is the
uniform draw's entry of the configured training-task list — the identity map on
uniform draws below the list length, hence a uniform per-call choice under which
every configured training task is selectable. -/
theorem C8_task_selection (cfg : NTPT5Config) :
    (∀ draw, tokenize_select_task false cfg draw = some cfg.test_task) ∧
    (∀ draw, (h : draw < cfg.training_tasks.length) →
      tokenize_select_task true cfg draw = some (cfg.training_tasks.get ⟨draw, h⟩)) ∧
    (∀ i, (h : i < cfg.training_tasks.length) →
      ((Finset.range cfg.training_tasks.length).filter
        (fun draw => tokenize_select_task true cfg draw =
          some (cfg.training_tasks.get ⟨i, h⟩) ∧ draw = i)).card = 1) := by
  refine ⟨fun draw => rfl, fun draw h => ?_, fun i h => ?_⟩
  · simp [tokenize_select_task, List.get?_eq_get h]
  · rw [Finset.card_eq_one]
    refine ⟨i, ?_⟩
    ext d
    simp only [Finset.mem_filter, Finset.mem_range, Finset.mem_singleton]
    constructor
    · rintro ⟨-, -, rfl⟩; rfl
    · rintro rfl
      exact ⟨h, by simp [tokenize_select_task, List.get?_eq_get h], rfl⟩

/-- Witness for C8 at a two-task configuration. -/
theorem C8_task_selection_witness :
    tokenize_select_task true
      ⟨[Task.directNTP, Task.boolNTP ["x"]], Task.directNTPSideInfo, ["x"]⟩ 1 =
      some ((⟨[Task.directNTP, Task.boolNTP ["x"]], Task.directNTPSideInfo,
        ["x"]⟩ : NTPT5Config).training_tasks.get ⟨1, by decide⟩) :=
  (C8_task_selection
    ⟨[Task.directNTP, Task.boolNTP ["x"]], Task.directNTPSideInfo, ["x"]⟩).2.1
    1 (by decide)

/-! ### C6: batch padding in `NTPT5.prepare_input` (lines 149-168) -/

/-- The common length `torch.nn.utils.rnn.pad_sequence` pads to: the maximum
sequence length occurring in the batch. -/
def batchMaxLen (seqs : List (List Int)) : Nat :=
  (seqs.map List.length).foldr max 0

/-- `pad_sequence(batch, batch_first=True, padding_value=pad)` (lines 152-154,
160): right-pad every sequence of the batch to the batch's own maximum length
with `pad`; raises on an empty batch. -/
def pad_sequence (pad : Int) (seqs : List (List Int)) : Option (List (List Int)) :=
  if seqs.isEmpty then none
  else some (seqs.map (fun s => s ++ List.replicate (batchMaxLen seqs - s.length) pad))

/-- The elementwise rewrite `lm_labels[lm_labels == pad_token_id] = -100`
(line 161). -/
def maskPad (pad x : Int) : Int :=
  if x = pad then -100 else x

/-- `NTPT5.prepare_input` (lines 149-168) restricted to its tensor fields: pad
`input_ids` and `attention_mask` with the tokenizer's pad token id, and, when
labels are present, pad them likewise and rewrite every pad-id position to the
ignore sentinel `-100`. -/
def NTPT5_prepare_input (pad : Int) (input_ids attention_mask : List (List Int))
    (labels : Option (List (List Int))) :
    Option (List (List Int) × List (List Int) × Option (List (List Int))) := do
  let ids ← pad_sequence pad input_ids
  let am ← pad_sequence pad attention_mask
  match labels with
  | none => pure (ids, am, none)
  | some ls => do
    let pl ← pad_sequence pad ls
    pure (ids, am, some (pl.map (List.map (maskPad pad))))

theorem getD_map_lt {α β : Type} (f : α → β) :
    ∀ (l : List α) (i : Nat) (d : α) (d' : β), i < l.length →
      (l.map f).getD i d' = f (l.getD i d)
  | [], i, _, _, h => by simp at h
  | x :: xs, 0, _, _, _ => by simp [List.getD_cons_zero]
  | x :: xs, i + 1, d, d', h => by
    simp only [List.map_cons, List.getD_cons_succ]
    exact getD_map_lt f xs i d d' (by simpa using h)

theorem length_le_batchMaxLen (seqs : List (List Int)) (s : List Int) (hs : s ∈ seqs) :
    s.length ≤ batchMaxLen seqs :=
  mem_le_foldr_max _ _ (List.mem_map_of_mem _ hs)

theorem foldr_max_mem : ∀ (l : List Nat), l ≠ [] → l.foldr max 0 ∈ l
  | [y], _ => by simp
  | y :: z :: zs, _ => by
    have hmem := foldr_max_mem (z :: zs) (by simp)
    rw [List.foldr_cons]
    rcases le_total ((z :: zs).foldr max 0) y with hle | hle
    · rw [max_eq_left hle]
      simp
    · rw [max_eq_right hle]
      exact List.mem_cons_of_mem _ hmem

theorem batchMaxLen_attained (seqs : List (List Int)) (hne : seqs ≠ []) :
    ∃ s ∈ seqs, s.length = batchMaxLen seqs := by
  have hmem : batchMaxLen seqs ∈ seqs.map List.length :=
    foldr_max_mem (seqs.map List.length) (by simpa using hne)
  rcases List.mem_map.mp hmem with ⟨s, hs, hlen⟩
  exact ⟨s, hs, hlen⟩

theorem pad_sequence_spec (pad : Int) (seqs : List (List Int)) (hne : seqs ≠ []) :
    ∃ out, pad_sequence pad seqs = some out ∧
      out.length = seqs.length ∧
      (∀ s ∈ out, s.length = batchMaxLen seqs) ∧
      (∃ s ∈ seqs, s.length = batchMaxLen seqs) ∧
      (∀ i, i < seqs.length → ∀ p, p < (seqs.getD i []).length →
        (out.getD i []).getD p pad = (seqs.getD i []).getD p pad) ∧
      (∀ i, i < seqs.length → ∀ p, (seqs.getD i []).length ≤ p → p < batchMaxLen seqs →
        (out.getD i []).getD p pad = pad) := by
  refine ⟨seqs.map (fun s => s ++ List.replicate (batchMaxLen seqs - s.length) pad),
    by simp [pad_sequence, List.isEmpty_iff, hne], by simp, ?_, batchMaxLen_attained seqs hne,
    ?_, ?_⟩
  · intro s hs
    rcases List.mem_map.mp hs with ⟨s0, hs0, rfl⟩
    have := length_le_batchMaxLen seqs s0 hs0
    simp only [List.length_append, List.length_replicate]
    omega
  · intro i hi p hp
    rw [getD_map_lt _ seqs i [] [] hi]
    exact List.getD_append _ _ _ _ hp
  · intro i hi p hge hlt
    rw [getD_map_lt _ seqs i [] [] hi]
    rw [List.getD_append_right _ _ _ _ hge]
    exact getD_replicate_of_lt _ _ _ _ (by omega)

/-- C6: `prepare_input` pads `input_ids` and `attention_mask` to exactly the
maximum length occurring in that batch (not a global constant) with the
tokenizer's pad token id, and in the padded label rows every true-length
position is rewritten by `maskPad` — so a position equal to the pad id becomes
`-100` — while every position beyond a label row's true length is `-100`. -/
theorem C6_prepare_input_padding (pad : Int) (input_ids attention_mask : List (List Int))
    (ls : List (List Int)) (h1 : input_ids ≠ []) (h2 : attention_mask ≠ [])
    (h3 : ls ≠ []) :
    ∃ ids am lout,
      NTPT5_prepare_input pad input_ids attention_mask (some ls) =
        some (ids, am, some lout) ∧
      (∀ s ∈ ids, s.length = batchMaxLen input_ids) ∧
      (∃ s ∈ input_ids, s.length = batchMaxLen input_ids) ∧
      (∀ i, i < input_ids.length → ∀ p, (input_ids.getD i []).length ≤ p →
        p < batchMaxLen input_ids → (ids.getD i []).getD p pad = pad) ∧
      (∀ s ∈ am, s.length = batchMaxLen attention_mask) ∧
      (∃ s ∈ attention_mask, s.length = batchMaxLen attention_mask) ∧
      (∀ s ∈ lout, s.length = batchMaxLen ls) ∧
      (∀ i, i < ls.length → ∀ p, p < (ls.getD i []).length →
        (lout.getD i []).getD p 0 = maskPad pad ((ls.getD i []).getD p pad)) ∧
      (∀ i, i < ls.length → ∀ p, (ls.getD i []).length ≤ p → p < batchMaxLen ls →
        (lout.getD i []).getD p 0 = -100) := by
  obtain ⟨ids, hids, hids_len, hids_all, hids_att, hids_keep, hids_pad⟩ :=
    pad_sequence_spec pad input_ids h1
  obtain ⟨am, ham, _, ham_all, ham_att, -, -⟩ := pad_sequence_spec pad attention_mask h2
  obtain ⟨pl, hpl, hpl_len, hpl_all, -, hpl_keep, hpl_pad⟩ := pad_sequence_spec pad ls h3
  refine ⟨ids, am, pl.map (List.map (maskPad pad)), ?_, hids_all, hids_att, hids_pad,
    ham_all, ham_att, ?_, ?_, ?_⟩
  · simp [NTPT5_prepare_input, hids, ham, hpl]
  · intro s hs
    rcases List.mem_map.mp hs with ⟨s0, hs0, rfl⟩
    simpa using hpl_all s0 hs0
  · intro i hi p hp
    have hi' : i < pl.length := by rw [hpl_len]; exact hi
    have hrowlen : (pl.getD i []).length = batchMaxLen ls := by
      apply hpl_all
      rw [List.getD_eq_getElem _ _ hi']
      exact List.getElem_mem _
    have hplen : p < (pl.getD i []).length := by
      rw [hrowlen]
      calc p < (ls.getD i []).length := hp
        _ ≤ batchMaxLen ls := by
          apply length_le_batchMaxLen
          rw [List.getD_eq_getElem _ _ (by exact hi)]
          exact List.getElem_mem _
    rw [getD_map_lt _ pl i [] [] hi', getD_map_lt _ (pl.getD i []) p pad 0 hplen]
    rw [hpl_keep i hi p hp]
  · intro i hi p hge hlt
    have hi' : i < pl.length := by rw [hpl_len]; exact hi
    have hrowlen : (pl.getD i []).length = batchMaxLen ls := by
      apply hpl_all
      rw [List.getD_eq_getElem _ _ hi']
      exact List.getElem_mem _
    have hplen : p < (pl.getD i []).length := by rw [hrowlen]; exact hlt
    rw [getD_map_lt _ pl i [] [] hi', getD_map_lt _ (pl.getD i []) p pad 0 hplen]
    rw [hpl_pad i hi p hge hlt]
    simp [maskPad]

/-- Witness for C6 on a concrete ragged batch with pad id 0. -/
theorem C6_prepare_input_padding_witness :
    ∃ ids am lout,
      NTPT5_prepare_input 0 ([[5], [6, 7]] : List (List Int))
        ([[1], [1, 1]] : List (List Int)) (some ([[9], [8, 0, 4]] : List (List Int))) =
        some (ids, am, some lout) ∧
      (∀ s ∈ ids, s.length = batchMaxLen ([[5], [6, 7]] : List (List Int))) ∧
      (∃ s ∈ ([[5], [6, 7]] : List (List Int)),
        s.length = batchMaxLen ([[5], [6, 7]] : List (List Int))) ∧
      (∀ i, i < ([[5], [6, 7]] : List (List Int)).length → ∀ p,
        (([[5], [6, 7]] : List (List Int)).getD i []).length ≤ p →
        p < batchMaxLen ([[5], [6, 7]] : List (List Int)) →
        (ids.getD i []).getD p 0 = 0) ∧
      (∀ s ∈ am, s.length = batchMaxLen ([[1], [1, 1]] : List (List Int))) ∧
      (∃ s ∈ ([[1], [1, 1]] : List (List Int)),
        s.length = batchMaxLen ([[1], [1, 1]] : List (List Int))) ∧
      (∀ s ∈ lout, s.length = batchMaxLen ([[9], [8, 0, 4]] : List (List Int))) ∧
      (∀ i, i < ([[9], [8, 0, 4]] : List (List Int)).length → ∀ p,
        p < (([[9], [8, 0, 4]] : List (List Int)).getD i []).length →
        (lout.getD i []).getD p 0 =
          maskPad 0 ((([[9], [8, 0, 4]] : List (List Int)).getD i []).getD p 0)) ∧
      (∀ i, i < ([[9], [8, 0, 4]] : List (List Int)).length → ∀ p,
        (([[9], [8, 0, 4]] : List (List Int)).getD i []).length ≤ p →
        p < batchMaxLen ([[9], [8, 0, 4]] : List (List Int)) →
        (lout.getD i []).getD p 0 = -100) :=
  C6_prepare_input_padding 0 [[5], [6, 7]] [[1], [1, 1]] [[9], [8, 0, 4]]
    (by decide) (by decide) (by decide)

/-! ### C5: similarity-based match counting in `NTPT5.valid_step` (lines 176-200) -/

/-- `sim.argmax(axis=1)` for one row (line 192): `torch.argmax` returns the index
of the first maximal value. -/
def argmaxIdx : List ℚ → Nat
  | [] => 0
  | x :: xs => if ∀ y ∈ xs, y ≤ x then 0 else argmaxIdx xs + 1

/-- `mapped_predictions = self.config.all_unique_labels[sim.argmax(axis=1)]`
(line 192): each candidate row of the similarity matrix is mapped to the label at
its argmax column. -/
def mapped_predictions (all_unique_labels : List String) (sim : List (List ℚ)) :
    List String :=
  sim.map (fun row => all_unique_labels.getD (argmaxIdx row) "")

/-- The match count (lines 196-198): for each input `j` with ground truth
`truth`, test `truth in mapped_predictions[j*k:(j+1)*k]` (Python slice semantics:
drop `j*k`, take `k`), and sum the booleans. -/
def valid_step_matches (all_unique_labels : List String) (k : Nat)
    (sim : List (List ℚ)) (target_text : List String) : Nat :=
  ((target_text.enum).map
    (fun jt =>
      if jt.2 ∈ ((mapped_predictions all_unique_labels sim).drop (jt.1 * k)).take k
      then 1 else 0)).sum

theorem argmaxIdx_lt : ∀ (l : List ℚ), l ≠ [] → argmaxIdx l < l.length
  | [], h => absurd rfl h
  | x :: xs, _ => by
    rw [argmaxIdx]
    split
    · simp
    · rename_i hnot
      push_neg at hnot
      obtain ⟨y, hy, -⟩ := hnot
      have hne : xs ≠ [] := by
        intro h; subst h; simp at hy
      simpa using argmaxIdx_lt xs hne

theorem getD_mem_of_lt {α : Type} (l : List α) (i : Nat) (d : α) (h : i < l.length) :
    l.getD i d ∈ l := by
  rw [List.getD_eq_getElem _ _ h]
  exact List.getElem_mem _

theorem mem_getD_of_mem {α : Type} (d : α) :
    ∀ (l : List α) (y : α), y ∈ l → ∃ j, j < l.length ∧ l.getD j d = y
  | [], y, hy => by simp at hy
  | x :: xs, y, hy => by
    rcases List.mem_cons.mp hy with rfl | hmem
    · exact ⟨0, by simp, by simp [List.getD_cons_zero]⟩
    · obtain ⟨j, hj, hgd⟩ := mem_getD_of_mem d xs y hmem
      exact ⟨j + 1, by simpa using hj, by simpa [List.getD_cons_succ] using hgd⟩

theorem argmaxIdx_is_max : ∀ (l : List ℚ) (j : Nat), j < l.length →
    l.getD j 0 ≤ l.getD (argmaxIdx l) 0
  | [], j, hj => by simp at hj
  | x :: xs, j, hj => by
    rw [argmaxIdx]
    split
    · rename_i hall
      rw [List.getD_cons_zero]
      cases j with
      | zero => simp [List.getD_cons_zero]
      | succ j' =>
        rw [List.getD_cons_succ]
        exact hall _ (getD_mem_of_lt xs j' 0 (by simpa using hj))
    · rename_i hnot
      push_neg at hnot
      obtain ⟨y, hy, hxy⟩ := hnot
      rw [List.getD_cons_succ]
      cases j with
      | zero =>
        rw [List.getD_cons_zero]
        obtain ⟨jy, hjy, hgd⟩ := mem_getD_of_mem 0 xs y hy
        calc x ≤ y := le_of_lt hxy
          _ = xs.getD jy 0 := hgd.symm
          _ ≤ xs.getD (argmaxIdx xs) 0 := argmaxIdx_is_max xs jy hjy
      | succ j' =>
        rw [List.getD_cons_succ]
        exact argmaxIdx_is_max xs j' (by simpa using hj)

theorem argmaxIdx_is_first : ∀ (l : List ℚ) (j : Nat), j < argmaxIdx l →
    l.getD j 0 < l.getD (argmaxIdx l) 0
  | [], j, hj => by simp [argmaxIdx] at hj
  | x :: xs, j, hj => by
    rw [argmaxIdx] at hj ⊢
    by_cases hall : ∀ y ∈ xs, y ≤ x
    · rw [if_pos hall] at hj
      omega
    · rw [if_neg hall] at hj ⊢
      push_neg at hall
      obtain ⟨y, hy, hxy⟩ := hall
      rw [List.getD_cons_succ]
      cases j with
      | zero =>
        rw [List.getD_cons_zero]
        obtain ⟨jy, hjy, hgd⟩ := mem_getD_of_mem 0 xs y hy
        calc x < y := hxy
          _ = xs.getD jy 0 := hgd.symm
          _ ≤ xs.getD (argmaxIdx xs) 0 := argmaxIdx_is_max xs jy hjy
      | succ j' =>
        rw [List.getD_cons_succ]
        exact argmaxIdx_is_first xs j' (by omega)

theorem sum_enumFrom_card {α : Type} (P : Nat → α → Prop) [∀ j x, Decidable (P j x)]
    (d : α) : ∀ (l : List α) (n : Nat),
    ((l.enumFrom n).map (fun jt => if P jt.1 jt.2 then 1 else 0)).sum =
      ((Finset.range l.length).filter (fun i => P (n + i) (l.getD i d))).card
  | [], n => by simp
  | x :: xs, n => by
    have ih := sum_enumFrom_card P d xs (n + 1)
    rw [List.enumFrom_cons]
    simp only [List.map_cons, List.sum_cons]
    rw [ih]
    rw [Finset.card_filter, Finset.card_filter]
    rw [List.length_cons, Finset.sum_range_succ']
    simp only [List.getD_cons_succ, List.getD_cons_zero, Nat.add_zero]
    have harith : ∀ i : Nat, n + 1 + i = n + (i + 1) := by omega
    rw [Nat.add_comm]
    congr 1
    apply Finset.sum_congr rfl
    intro i _
    rw [harith i]

/-- C5: each generated candidate (row of the similarity matrix) is mapped to the
label at the first index of highest similarity in the full label vocabulary, and
the match count returned by `valid_step` equals the number of inputs whose ground
truth occurs within that input's own contiguous block of `k` mapped labels,
where `k` is the configured number of returned sequences. -/
theorem C5_match_counting (all_unique_labels : List String) (k : Nat)
    (sim : List (List ℚ)) (target_text : List String)
    (hk : sim.length = target_text.length * k)
    (hrows : ∀ row ∈ sim, row ≠ []) :
    (∀ r, r < sim.length →
      (mapped_predictions all_unique_labels sim).getD r "" =
        all_unique_labels.getD (argmaxIdx (sim.getD r [])) "" ∧
      argmaxIdx (sim.getD r []) < (sim.getD r []).length ∧
      (∀ j, j < (sim.getD r []).length →
        (sim.getD r []).getD j 0 ≤ (sim.getD r []).getD (argmaxIdx (sim.getD r [])) 0) ∧
      (∀ j, j < argmaxIdx (sim.getD r []) →
        (sim.getD r []).getD j 0 < (sim.getD r []).getD (argmaxIdx (sim.getD r [])) 0)) ∧
    valid_step_matches all_unique_labels k sim target_text =
      ((Finset.range target_text.length).filter
        (fun j => target_text.getD j "" ∈
          ((mapped_predictions all_unique_labels sim).drop (j * k)).take k)).card := by
  constructor
  · intro r hr
    have hrow : sim.getD r [] ≠ [] := hrows _ (getD_mem_of_lt sim r [] hr)
    refine ⟨?_, argmaxIdx_lt _ hrow, argmaxIdx_is_max _, argmaxIdx_is_first _⟩
    exact getD_map_lt _ sim r [] "" hr
  · unfold valid_step_matches
    rw [List.enum]
    rw [sum_enumFrom_card
      (fun j t => t ∈ ((mapped_predictions all_unique_labels sim).drop (j * k)).take k)
      "" target_text 0]
    simp

/-- Witness for C5: the spec's synthetic scenario — `k = 3`, 5 inputs, a
15-row similarity matrix over a 3-label vocabulary engineered so that exactly
inputs 0 and 1 find their ground truth in their own block; additionally checks
the resulting match count is 2. -/
theorem C5_match_counting_witness :
    (valid_step_matches ["a", "b", "c"] 3
      [[1, 0, 0], [0, 0, 1], [0, 0, 1],
       [0, 0, 1], [0, 1, 0], [0, 0, 1],
       [1, 0, 0], [0, 1, 0], [1, 0, 0],
       [0, 1, 0], [0, 1, 0], [0, 0, 1],
       [1, 0, 0], [0, 0, 1], [1, 0, 0]]
      ["a", "b", "c", "a", "b"] = 2) ∧
    valid_step_matches ["a", "b", "c"] 3
      [[1, 0, 0], [0, 0, 1], [0, 0, 1],
       [0, 0, 1], [0, 1, 0], [0, 0, 1],
       [1, 0, 0], [0, 1, 0], [1, 0, 0],
       [0, 1, 0], [0, 1, 0], [0, 0, 1],
       [1, 0, 0], [0, 0, 1], [1, 0, 0]]
      ["a", "b", "c", "a", "b"] =
      ((Finset.range 5).filter
        (fun j => (["a", "b", "c", "a", "b"].getD j "") ∈
          ((mapped_predictions ["a", "b", "c"]
            [[1, 0, 0], [0, 0, 1], [0, 0, 1],
             [0, 0, 1], [0, 1, 0], [0, 0, 1],
             [1, 0, 0], [0, 1, 0], [1, 0, 0],
             [0, 1, 0], [0, 1, 0], [0, 0, 1],
             [1, 0, 0], [0, 0, 1], [1, 0, 0]]).drop (j * 3)).take 3)).card :=
  ⟨by decide,
    (C5_match_counting ["a", "b", "c"] 3
      [[1, 0, 0], [0, 0, 1], [0, 0, 1],
       [0, 0, 1], [0, 1, 0], [0, 0, 1],
       [1, 0, 0], [0, 1, 0], [1, 0, 0],
       [0, 1, 0], [0, 1, 0], [0, 0, 1],
       [1, 0, 0], [0, 0, 1], [1, 0, 0]]
      ["a", "b", "c", "a", "b"] (by decide) (by decide)).2⟩

/-! ## Sentence encoder: chunked batch encoding
    (`sentence_encoders.py`, `SentenceEncoder.__call__` lines 23-40) -/

/-- `dataset.iter(batch_size=bs)` (line 28): consecutive chunks of size `bs`,
the last one possibly shorter.  (Only `bs ≥ 1` is reachable: line 30 divides by
`batch_size` before any iteration.) -/
def chunked {α : Type} (bs : Nat) : List α → List (List α)
  | [] => []
  | x :: xs => (x :: xs.take (bs - 1)) :: chunked bs (xs.drop (bs - 1))
termination_by l => l.length
decreasing_by
  simp only [List.length_cons, List.length_drop]
  omega

/-- `SentenceEncoder.__call__` (lines 23-40): iterate over the dataset in chunks
of the configured batch size, encode each chunk with `encode_batch`, and
`torch.vstack` the chunk outputs (raising on an empty output list; a zero batch
size raises already at line 30, `ceil(num_rows / batch_size)`).  `encode_batch`
is modelled as the per-sentence embedding map `enc`: both concrete strategies
(`SentenceTransformerEncoder.encode_batch`, line 54-55, and
`BertSentenceEncoder.encode_batch`, lines 106-115) return one embedding row per
input sentence of the chunk. -/
def SentenceEncoder_call (batch_size : Nat) (enc : String → List ℚ)
    (sentences : List String) : Option (List (List ℚ)) :=
  if batch_size = 0 then none
  else
    let outputs := (chunked batch_size sentences).map (fun chunk => chunk.map enc)
    if outputs.isEmpty then none else some outputs.flatten

theorem flatten_chunked {α : Type} (bs : Nat) : ∀ (l : List α), (chunked bs l).flatten = l
  | [] => by rw [chunked]; rfl
  | x :: xs => by
    rw [chunked, List.flatten_cons, flatten_chunked bs (xs.drop (bs - 1))]
    simp [List.take_append_drop]
termination_by l => l.length
decreasing_by
  simp only [List.length_cons, List.length_drop]
  omega

theorem flatten_map_chunked (bs : Nat) (enc : String → List ℚ) (l : List String) :
    (((chunked bs l).map (fun chunk => chunk.map enc)).flatten) = l.map enc := by
  rw [← List.map_flatten, flatten_chunked]

/-- C9 counterexample for the claim as stated: on the empty sentence list (any
chunk size), `__call__` raises — `torch.vstack` of an empty output list, line
40 — instead of returning the empty (zero-row) embedding matrix. -/
theorem C9_empty_input_counterexample :
    SentenceEncoder_call 1 (fun _ => [0]) [] = none ∧
    SentenceEncoder_call 1 (fun _ => [0]) [] ≠
      some (([] : List String).map (fun _ => [(0 : ℚ)])) := by
  have h1 : SentenceEncoder_call 1 (fun _ => [0]) [] = none := by
    show (if (1 : Nat) = 0 then none
      else
        let outputs := (chunked 1 ([] : List String)).map
          (fun chunk => chunk.map (fun _ => [(0 : ℚ)]))
        if outputs.isEmpty then none else some outputs.flatten) = none
    rw [chunked]
    rfl
  refine ⟨h1, fun h => ?_⟩
  rw [h1] at h
  exact Option.noConfusion h

/-- C9 (amended to non-empty input and positive batch size): for every non-empty
list of sentences and every positive batch size, `__call__` splits the input into
consecutive chunks of the configured batch size, encodes each chunk, and stacks
the chunk results in order, so the output has one row per input sentence, row `i`
being the encoding of sentence `i`, independently of the chosen batch size. -/
theorem C9_encoding_preserves_order (batch_size : Nat) (enc : String → List ℚ)
    (sentences : List String) (hbs : batch_size ≠ 0) (hne : sentences ≠ []) :
    SentenceEncoder_call batch_size enc sentences = some (sentences.map enc) := by
  show (if batch_size = 0 then none
    else
      let outputs := (chunked batch_size sentences).map (fun chunk => chunk.map enc)
      if outputs.isEmpty then none else some outputs.flatten) = some (sentences.map enc)
  rw [if_neg hbs]
  have hchunk : ((chunked batch_size sentences).map (fun chunk => chunk.map enc)).isEmpty
      = false := by
    cases sentences with
    | nil => exact absurd rfl hne
    | cons x xs =>
      rw [chunked]
      rfl
  show (if ((chunked batch_size sentences).map (fun chunk => chunk.map enc)).isEmpty
    then none
    else some ((chunked batch_size sentences).map (fun chunk => chunk.map enc)).flatten) =
    some (sentences.map enc)
  rw [hchunk]
  simp only [Bool.false_eq_true, if_false]
  rw [flatten_map_chunked]

/-- Witness for the amended C9: batch size 2 over three sentences. -/
theorem C9_encoding_preserves_order_witness :
    SentenceEncoder_call 2 (fun s => [(s.length : ℚ)]) ["a", "bb", "ccc"] =
      some (["a", "bb", "ccc"].map (fun s => [(s.length : ℚ)])) :=
  C9_encoding_preserves_order 2 (fun s => [(s.length : ℚ)]) ["a", "bb", "ccc"]
    (by decide) (by decide)

end BD
